import Mathlib

/-!
# Verification of the WebsiteContentChecker crawler (`src/app.py`)

A shallow embedding of the bounded-frontier, same-origin crawler of
`app.py` together with proofs about it.  Python strings are `List Char`,
machine-level libraries (`requests`, `BeautifulSoup`, `PIL`, `cv2`,
`pytesseract`) are modelled as oracles (`Except`-valued functions, an
exception being the `error` case), and the crawl loop is embedded as an
explicitly fuelled state-transition function together with a proof that the
chosen fuel always reaches one of the loop's two exit conditions.
-/

namespace WCC

/-! ## Content matcher: `count_occurrences` (app.py lines 35–38)

`pyCount` models Python's `str.count`: the number of non-overlapping
occurrences of `k` in `t`, scanning left to right and skipping `k.length`
characters after each match.  Python's `t.count("")` returns
`t.length + 1`; the scan below reproduces that via the `k = []` branch.
The auxiliary `skip` counter makes the recursion structural on the text. -/

def pyCountAux (k : List Char) : List Char → Nat → Nat
  | [], _ => 0
  | _ :: rest, Nat.succ s => pyCountAux k rest s
  | c :: rest, 0 =>
    if k = (c :: rest).take k.length then 1 + pyCountAux k rest (k.length - 1)
    else pyCountAux k rest 0

/-- Python `t.count(k)`. -/
def pyCount (t k : List Char) : Nat :=
  if k = [] then t.length + 1 else pyCountAux k t 0

/-- `count_occurrences` (app.py lines 35–38): `if not text: return 0;
return text.count(keyword)`. -/
def count_occurrences (text keyword : List Char) : Nat :=
  if text = [] then 0 else pyCount text keyword

/-! ## URL model: `urllib.parse.urlparse` / `urljoin`

`app.py` resolves and classifies links with `urllib.parse`.  The model
below covers hierarchical (http/https-style) references: absolute
references with a scheme, protocol-relative (`//host/p`), root-relative
(`/p`), fragment-only (`#f`) and plain relative references without
dot-segments; base URLs are assumed query- and fragment-free, which holds
for every reference the claims and counterexamples use. -/

/-- Characters that end the network-location component. -/
def netlocStop (c : Char) : Bool := c = '/' || c = '?' || c = '#'

/-- Characters allowed inside a URL scheme. -/
def schemeChar (c : Char) : Bool := c.isAlphanum || c = '+' || c = '-' || c = '.'

/-- Split `scheme://rest` into `(scheme, rest)` when the reference starts
with a scheme followed by `://`. -/
def splitScheme (s : List Char) : Option (List Char × List Char) :=
  let sch := s.takeWhile schemeChar
  let rest := s.drop sch.length
  if sch ≠ [] ∧ rest.take 3 = [':', '/', '/'] then some (sch, rest.drop 3)
  else none

/-- The components of a parsed URL that `app.py` looks at. -/
structure UrlParts where
  scheme : List Char
  netloc : List Char
  path : List Char
deriving DecidableEq, Repr

/-- `urllib.parse.urlparse` restricted to the scheme/netloc/path split. -/
def urlparse (s : List Char) : UrlParts :=
  match splitScheme s with
  | some (sch, rest) =>
    let nl := rest.takeWhile (fun c => !netlocStop c)
    ⟨sch, nl, rest.drop nl.length⟩
  | none =>
    if s.take 2 = ['/', '/'] then
      let r := s.drop 2
      let nl := r.takeWhile (fun c => !netlocStop c)
      ⟨[], nl, r.drop nl.length⟩
    else ⟨[], [], s⟩

/-- The portion of `p` up to and including its last `/` (empty when `p`
has no slash); the directory part used when merging a relative path. -/
def dirPart (p : List Char) : List Char :=
  ((p.reverse.dropWhile (fun c => c ≠ '/')).reverse)

/-- `urllib.parse.urljoin base url` on the reference forms listed above. -/
def urljoin (base url : List Char) : List Char :=
  if url = [] then base
  else
    let b := urlparse base
    match splitScheme url with
    | some _ => url
    | none =>
      if url.take 2 = ['/', '/'] then b.scheme ++ (':' :: url)
      else if url.take 1 = ['/'] then
        b.scheme ++ ':' :: '/' :: '/' :: (b.netloc ++ url)
      else if url.take 1 = ['#'] then base ++ url
      else
        b.scheme ++ ':' :: '/' :: '/' :: b.netloc ++
          (if dirPart b.path = [] then '/' :: url else dirPart b.path ++ url)

/-- `is_internal_link` (app.py lines 23–24):
`urlparse(link).netloc == urlparse(base_url).netloc`. -/
def is_internal_link (base_url link : List Char) : Bool :=
  (urlparse link).netloc == (urlparse base_url).netloc

/-- The link-discovery step of `scan_website` (app.py lines 157–161): for
each `href` attribute (in document order) resolve it against the page URL
and keep it when `is_internal_link base_url link and link not in visited`.
The returned list is what gets appended to the frontier queue. -/
def discover_links (base_url url : List Char) (hrefs : List (List Char))
    (visited : List (List Char)) : List (List Char) :=
  (hrefs.map (urljoin url)).filter
    (fun link => is_internal_link base_url link && !visited.contains link)

/-! ## Fetcher: `get_page_content` (app.py lines 26–33)

The composite `requests.get(url, timeout=10)` + `BeautifulSoup(r.text)` +
`soup.get_text(separator=" ").lower()` call is an oracle
`http : U → Except ε (PageDoc U)`: the `error` case is any raised
exception (network error, timeout, parse failure), the `ok` case carries
the parsed document.  A `PageDoc` records exactly what the crawler reads
from a parsed page: its lower-cased visible text, the `urljoin`-resolved
targets of its `<a href=...>` elements in document order, and the
`urljoin`-resolved non-empty `src` attributes of its `<img>` elements in
document order. -/

structure PageDoc (U : Type) where
  text : List Char
  links : List U
  imgs : List U
deriving DecidableEq

/-- `get_page_content` (app.py lines 26–33): on success return the parsed
document and its lower-cased text, on any exception return `(None, "")`. -/
def get_page_content {U ε : Type} (http : U → Except ε (PageDoc U)) (url : U) :
    Option (PageDoc U) × List Char :=
  match http url with
  | .error _ => (none, [])
  | .ok doc => (some doc, doc.text)

/-! ## OCR: `extract_text_from_image` (app.py lines 41–58)

Pillow/pytesseract calls are oracles; each stage inside the single
`try` block may raise.  The preprocessing is embedded as data
(`List ImgOp`) so the pipeline's exact shape is a provable statement. -/

inductive Interp
  | nearest
  | bilinear
  | bicubic
deriving DecidableEq

inductive ImgMode
  | RGBA
  | L
deriving DecidableEq

inductive ImgOp
  | convert (mode : ImgMode)
  | resize (factor : Nat) (interp : Interp)
  | sharpen
  | contrast (factor : Nat)
deriving DecidableEq

/-- The image operations `extract_text_from_image` performs before
calling the OCR engine (app.py lines 46–52): `convert("RGBA")`,
`convert("L")`, `resize((w*2, h*2), Image.BICUBIC)`,
`filter(ImageFilter.SHARPEN)`, `ImageEnhance.Contrast(img).enhance(2)`. -/
def ocrPipeline : List ImgOp :=
  [.convert .RGBA, .convert .L, .resize 2 .bicubic, .sharpen, .contrast 2]

/-- The pytesseract configuration string (app.py line 55); `--psm 6` is
Tesseract's single-uniform-block-of-text page-segmentation mode. -/
def ocrConfig : String := "--psm 6"

/-- Run a list of image operations, propagating the first failure. -/
def applyOps {ε Img : Type} (step : ImgOp → Img → Except ε Img) :
    List ImgOp → Img → Except ε Img
  | [], img => .ok img
  | op :: ops, img =>
    match step op img with
    | .error e => .error e
    | .ok img' => applyOps step ops img'

/-- Oracles for the stages of `extract_text_from_image`: `download` is
`requests.get` (returning the response body bytes — note a 404 response
is an `ok` whose bytes are the error page, since `requests` does not
raise on HTTP error statuses), `decode` is `Image.open(BytesIO(...))`,
`step` interprets one preprocessing operation, `runOcr` is
`pytesseract.image_to_string` with a config string. -/
structure OcrEnv (U ε Bytes Img : Type) where
  download : U → Except ε Bytes
  decode : Bytes → Except ε Img
  step : ImgOp → Img → Except ε Img
  runOcr : Img → String → Except ε (List Char)

/-- `extract_text_from_image` (app.py lines 41–58): download, decode,
preprocess, OCR, lower-case; any exception at any stage yields `""`. -/
def extract_text_from_image {U ε Bytes Img : Type} (env : OcrEnv U ε Bytes Img)
    (img_url : U) : List Char :=
  match env.download img_url with
  | .error _ => []
  | .ok b =>
    match env.decode b with
    | .error _ => []
    | .ok img =>
      match applyOps env.step ocrPipeline img with
      | .error _ => []
      | .ok pre =>
        match env.runOcr pre ocrConfig with
        | .error _ => []
        | .ok t => t.map Char.toLower

/-! ## Visual text detection: `image_contains_text` (app.py lines 61–88) -/

/-- A bounding rectangle as returned by `cv2.boundingRect`. -/
structure Rect where
  x : Nat
  y : Nat
  w : Nat
  h : Nat
deriving DecidableEq

/-- The text-plausible bounding-box envelope (app.py line 83):
`20 < w < 500 and 10 < h < 200`. -/
def textLikeRegion (r : Rect) : Bool :=
  20 < r.w && r.w < 500 && 10 < r.h && r.h < 200

/-- Oracles for the stages of `image_contains_text`: `download` is
`requests.get`, `decode` is `np.frombuffer` + `cv2.imdecode(...,
IMREAD_GRAYSCALE)`, `threshold` is `cv2.adaptiveThreshold(img, 255,
ADAPTIVE_THRESH_MEAN_C, THRESH_BINARY_INV, 15, 3)`, `contours` is
`cv2.findContours(..., RETR_EXTERNAL, CHAIN_APPROX_SIMPLE)` followed by
`cv2.boundingRect` on each contour. -/
structure VisionEnv (U ε Bytes GImg BinImg : Type) where
  download : U → Except ε Bytes
  decode : Bytes → Except ε GImg
  threshold : GImg → Except ε BinImg
  contours : BinImg → Except ε (List Rect)

/-- `image_contains_text` (app.py lines 61–88): count the contours whose
bounding box is text-plausible and report whether at least 3 were found;
any exception at any stage yields `False`. -/
def image_contains_text {U ε Bytes GImg BinImg : Type}
    (env : VisionEnv U ε Bytes GImg BinImg) (img_url : U) : Bool :=
  match env.download img_url with
  | .error _ => false
  | .ok b =>
    match env.decode b with
    | .error _ => false
    | .ok g =>
      match env.threshold g with
      | .error _ => false
      | .ok bin =>
        match env.contours bin with
        | .error _ => false
        | .ok rects => decide (3 ≤ rects.countP (fun r => textLikeRegion r))

/-! ## Crawl engine: `scan_website` (app.py lines 92–163)

The loop is embedded over an arbitrary URL type `U` (instantiated at
`List Char` for string-level claims and at small finite types for
witnesses).  The UI-progress calls (lines 114–116) write to widgets and
carry no state read back by the loop, so they do not appear in the state.
The per-page image loop (lines 129–143) additionally records the list of
URLs on which `image_contains_text` was invoked, so that the
short-circuit behaviour is a provable statement; `visited` is a `Finset`
(Python `set`), and `fetched` is the trace of `get_page_content` calls. -/

inductive Mode
  | textOnly
  | imagesOnly
  | textAndImages
deriving DecidableEq

/-- `mode in ("Text only", "Text + Images")` (app.py line 125). -/
def Mode.textSearch : Mode → Bool
  | .textOnly => true
  | .imagesOnly => false
  | .textAndImages => true

/-- `mode in ("Images only", "Text + Images")` (app.py line 129). -/
def Mode.imageSearch : Mode → Bool
  | .textOnly => false
  | .imagesOnly => true
  | .textAndImages => true

/-- The per-page image loop (app.py lines 130–143): accumulate
`count_occurrences(ocr img, kw)` over every image, set `has` on the first
image for which `vis` answers true and — because of Python's
short-circuit `and` in `if not image_has_text and image_contains_text(...)`
— stop invoking `vis` afterwards.  The third component is the trace of
`vis` invocations. -/
def image_scan {U : Type} (ocr : U → List Char) (vis : U → Bool)
    (kw : List Char) : List U → Nat → Bool → Nat × Bool × List U
  | [], cnt, has => (cnt, has, [])
  | i :: rest, cnt, has =>
    let cnt' := cnt + count_occurrences (ocr i) kw
    if has then image_scan ocr vis kw rest cnt' has
    else
      let v := vis i
      let r := image_scan ocr vis kw rest cnt' (has || v)
      (r.1, r.2.1, i :: r.2.2)

/-- One row of the `results` list (app.py lines 146–154); the Yes/No
strings and `"Total Count"` of the Python dict are derived from these
fields (`total = text_count + image_count`). -/
structure PageResult (U : Type) where
  url : U
  text_count : Nat
  image_count : Nat
  image_has_text : Bool
deriving DecidableEq

/-- The environment of one `scan_website` call: the page-fetch oracle,
the two (already fail-soft, hence total) image analyses
`extract_text_from_image` / `image_contains_text` specialised to their
oracles, the same-origin test `is_internal_link base_url ·` with the seed
URL fixed, the search mode, the lower-cased search phrase and the page
budget `max_pages`. -/
structure CrawlConfig (U ε : Type) where
  http : U → Except ε (PageDoc U)
  ocr : U → List Char
  vis : U → Bool
  isInternal : U → Bool
  mode : Mode
  kw : List Char
  budget : Nat

/-- The mutable state of the `while` loop (app.py lines 101–104), plus
the trace `fetched` of page-fetch calls. -/
structure CrawlState (U : Type) [DecidableEq U] where
  queue : List U
  visited : Finset U
  results : List (PageResult U)
  scanned : Nat
  fetched : List U

variable {U ε : Type} [DecidableEq U]

/-- The links enqueued while processing a page whose document is `doc`
and whose post-
insertion visited set is `visited'` (app.py lines 158–161):
those resolved links that are internal and not yet visited, in document
order.  (`doc.links` already carries the `urljoin` resolution, see
`PageDoc`.) -/
def newLinks (cfg : CrawlConfig U ε) (visited' : Finset U) (doc : PageDoc U) :
    List U :=
  doc.links.filter (fun l => cfg.isInternal l && decide (l ∉ visited'))

/-- The body of `scan_website`'s `while queue and scanned < max_pages`
loop (app.py lines 106–161), as a fuelled transition function: `fuel`
bounds the number of iterations, and running out of fuel returns the
state unchanged (the accompanying lemmas show the fuel chosen in
`crawlRun` never runs out). -/
def crawlLoop (cfg : CrawlConfig U ε) : Nat → CrawlState U → CrawlState U
  | 0, st => st
  | fuel + 1, st =>
    match st.queue with
    | [] => st
    | url :: rest =>
      if cfg.budget ≤ st.scanned then st
      else if url ∈ st.visited then
        crawlLoop cfg fuel { st with queue := rest }
      else
        let visited' := insert url st.visited
        let fp := get_page_content cfg.http url
        let tc := if cfg.mode.textSearch then count_occurrences fp.2 cfg.kw else 0
        let im :=
          if cfg.mode.imageSearch then
            match fp.1 with
            | some doc =>
              let r := image_scan cfg.ocr cfg.vis cfg.kw doc.imgs 0 false
              (r.1, r.2.1)
            | none => (0, false)
          else (0, false)
        let results' :=
          if tc > 0 || im.1 > 0 || im.2 then
            st.results ++ [⟨url, tc, im.1, im.2⟩]
          else st.results
        let queue' :=
          match fp.1 with
          | some doc => rest ++ newLinks cfg visited' doc
          | none => rest
        crawlLoop cfg fuel
          ⟨queue', visited', results', st.scanned + 1, st.fetched ++ [url]⟩

/-- Number of resolved anchors on `u`'s page (0 when the fetch fails);
the weight used by the termination measure. -/
def outWeight (cfg : CrawlConfig U ε) (u : U) : Nat :=
  match cfg.http u with
  | .error _ => 0
  | .ok doc => doc.links.length

/-- Termination measure: queue length plus the total anchor count of the
still-unvisited part of the URL universe.  Every loop iteration strictly
decreases it. -/
def crawlMeasure [Fintype U] (cfg : CrawlConfig U ε) (st : CrawlState U) : Nat :=
  st.queue.length + ∑ u ∈ Finset.univ \ st.visited, outWeight cfg u

/-- The initial state of `scan_website` (app.py lines 101–104). -/
def initState (seed : U) : CrawlState U := ⟨[seed], ∅, [], 0, []⟩

/-- A full `scan_website` run from the seed URL, with fuel exceeding the
initial measure (so the loop provably reaches an exit condition). -/
def crawlRun [Fintype U] (cfg : CrawlConfig U ε) (seed : U) : CrawlState U :=
  crawlLoop cfg (crawlMeasure cfg (initState seed) + 1) (initState seed)

/-- `scan_website` (app.py lines 92–163): returns `(results, scanned)`. -/
def scan_website [Fintype U] (cfg : CrawlConfig U ε) (seed : U) :
    List (PageResult U) × Nat :=
  ((crawlRun cfg seed).results, (crawlRun cfg seed).scanned)

/-! ## The reachable same-origin graph

`succs cfg u` are the crawl edges out of `u`: the resolved anchors of
`u`'s page that pass the same-origin test (independent of any visited
set).  `reach cfg seed` is the set of URLs reachable from the seed along
such edges, computed as a finite fixpoint. -/

/-- Same-origin successors of a URL. -/
def succs (cfg : CrawlConfig U ε) (u : U) : List U :=
  match cfg.http u with
  | .error _ => []
  | .ok doc => doc.links.filter cfg.isInternal

/-- One expansion step of the reachable set. -/
def expandR (cfg : CrawlConfig U ε) (s : Finset U) : Finset U :=
  s ∪ s.biUnion (fun u => (succs cfg u).toFinset)

/-- The reachable same-origin graph, as the fixpoint of `expandR`
reached after `|U|` expansion steps from `{seed}`. -/
def reach [Fintype U] (cfg : CrawlConfig U ε) (seed : U) : Finset U :=
  (expandR cfg)^[Fintype.card U] {seed}

/-! ## Auxiliary descriptions used in the statements -/

/-- The images on which the per-page loop invokes `image_contains_text`
when it starts with `image_has_text = False`: every image up to and
including the first one the detector trips on (all of them when none
trips). -/
def visCallsExpected {U : Type} (vis : U → Bool) : List U → List U
  | [] => []
  | i :: rest => if vis i then [i] else i :: visCallsExpected vis rest

/-- The OCR preprocessing pipeline as §4.4 of the specification words it:
convert to greyscale, upscale 2× with linear interpolation, apply a
sharpening filter, then increase contrast by a fixed factor.  Stated
only to be compared with `ocrPipeline`, the pipeline the code performs. -/
def specOcrPipeline : List ImgOp :=
  [.convert .L, .resize 2 .bilinear, .sharpen, .contrast 2]

/-- The UI-side validation gate (app.py line 201): the scan is started
only when both the seed URL and the search text are non-empty
(`if not website_url or not search_text: st.error(...)`). -/
def ui_accepts (website_url search_text : List Char) : Bool :=
  !(website_url.isEmpty || search_text.isEmpty)

/-- The negation of the `while` guard (app.py line 106): the loop has
terminated exactly when the frontier is empty or the budget is used up. -/
def ExitCond (cfg : CrawlConfig U ε) (st : CrawlState U) : Prop :=
  st.queue = [] ∨ cfg.budget ≤ st.scanned

/-- The loop invariant of `scan_website`, relative to the seed's
reachable same-origin graph. -/
structure CrawlInv [Fintype U] (cfg : CrawlConfig U ε) (seed : U)
    (st : CrawlState U) : Prop where
  scanned_eq : st.scanned = st.visited.card
  queue_reach : ∀ u ∈ st.queue, u ∈ reach cfg seed
  visited_reach : st.visited ⊆ reach cfg seed
  closed : ∀ u ∈ st.visited, ∀ v ∈ succs cfg u, v ∈ st.visited ∨ v ∈ st.queue
  seed_mem : seed ∈ st.visited ∨ seed ∈ st.queue
  fetched_nodup : st.fetched.Nodup
  fetched_visited : st.fetched.toFinset = st.visited

/-! ## Concrete instances used by witnesses and counterexamples -/

/-- A two-page site on `Fin 2`: page `0` links to page `1` twice, page
`1` has no links; text/image search finds nothing; budget 2. -/
def cfgEx : CrawlConfig (Fin 2) Unit where
  http := fun u => if u = 0 then .ok ⟨[], [1, 1], []⟩ else .ok ⟨[], [], []⟩
  ocr := fun _ => []
  vis := fun _ => false
  isInternal := fun _ => true
  mode := .textOnly
  kw := ['x']
  budget := 2

/-- `cfgEx` with budget 1 (smaller than the reachable graph). -/
def cfgB1 : CrawlConfig (Fin 2) Unit := { cfgEx with budget := 1 }

/-- `cfgEx` with budget 3 (strictly larger than the reachable graph). -/
def cfgB3 : CrawlConfig (Fin 2) Unit := { cfgEx with budget := 3 }

/-- A configuration whose only page fetch raises. -/
def cfgErr : CrawlConfig Unit Unit where
  http := fun _ => .error ()
  ocr := fun _ => []
  vis := fun _ => false
  isInternal := fun _ => true
  mode := .textAndImages
  kw := ['k']
  budget := 5

/-- The OCR oracle seen on an image URL that answers 404: `requests.get`
succeeds (returning the HTML error page as the body), and `Image.open`
then raises on those bytes. -/
def ocrEnv404 : OcrEnv Unit Unit Unit Unit where
  download := fun _ => .ok ()
  decode := fun _ => .error ()
  step := fun _ i => .ok i
  runOcr := fun _ _ => .ok []

/-- The vision oracle seen on the same 404 image URL: `cv2.imdecode`
returns `None` on the HTML bytes, so `cv2.adaptiveThreshold` raises. -/
def visionEnv404 : VisionEnv Unit Unit Unit Unit Unit where
  download := fun _ => .ok ()
  decode := fun _ => .error ()
  threshold := fun _ => .error ()
  contours := fun _ => .error ()

/-- An OCR oracle on which every stage succeeds and the engine reads
`"Hi"`. -/
def ocrEnvOk : OcrEnv Unit Unit Unit Unit where
  download := fun _ => .ok ()
  decode := fun _ => .ok ()
  step := fun _ i => .ok i
  runOcr := fun _ _ => .ok ['H', 'i']

/-! ## Content-matcher lemmas -/

theorem pyCountAux_eq_zero_iff (k : List Char) (hk : k ≠ []) (t : List Char) :
    pyCountAux k t 0 = 0 ↔ ¬ k <:+: t := by
  induction t with
  | nil => simp [pyCountAux, List.infix_nil, hk]
  | cons c rest ih =>
    by_cases h : k = (c :: rest).take k.length
    · have hinf : k <:+: c :: rest :=
        (List.prefix_iff_eq_take.mpr h).isInfix
      simp [pyCountAux, if_pos h, hinf]
    · have hpre : ¬ k <+: c :: rest := fun hp => h (List.prefix_iff_eq_take.mp hp)
      simp only [pyCountAux, if_neg h, ih, List.infix_cons_iff]
      tauto

theorem count_occurrences_eq_zero_iff (t k : List Char) (hk : k ≠ []) :
    count_occurrences t k = 0 ↔ ¬ k <:+: t := by
  cases t with
  | nil => simp [count_occurrences, List.infix_nil, hk]
  | cons c rest =>
    simp only [count_occurrences, pyCount, if_neg (List.cons_ne_nil c rest),
      if_neg hk]
    exact pyCountAux_eq_zero_iff k hk (c :: rest)

/-- C3.  The content matcher `count_occurrences` performs literal
non-overlapping substring counting: an empty haystack always yields zero
(for any phrase, including the empty one), for a non-empty phrase the
count is zero exactly when the phrase does not occur as a contiguous
substring of the haystack, `count "kidskids" "kids" = 2` (adjacent
occurrences are both counted), `count "kids love kids" "kids" = 2` on
already-lower-cased input, and `count "aaa" "aa" = 1` (non-overlapping,
not overlapping, matching). -/
theorem count_occurrences_spec :
    (∀ k : List Char, count_occurrences [] k = 0) ∧
    (∀ t k : List Char, k ≠ [] → (count_occurrences t k = 0 ↔ ¬ k <:+: t)) ∧
    count_occurrences "kidskids".toList "kids".toList = 2 ∧
    count_occurrences "kids love kids".toList "kids".toList = 2 ∧
    count_occurrences "aaa".toList "aa".toList = 1 := by
  refine ⟨fun k => rfl, count_occurrences_eq_zero_iff, by decide, by decide, by decide⟩

/-- Witness for C3: the general zero-count characterisation applied to a
concrete haystack/phrase pair. -/
theorem count_occurrences_spec_witness :
    "xy".toList ≠ ([] : List Char) ∧
    (count_occurrences "kidskids".toList "xy".toList = 0 ↔
      ¬ "xy".toList <:+: "kidskids".toList) :=
  ⟨by decide, count_occurrences_spec.2.1 "kidskids".toList "xy".toList (by decide)⟩

/-- C10.  `count_occurrences` has no guard on the phrase: on a non-empty
haystack the empty phrase yields `text.length + 1` (Python's
`str.count("")`), not zero; only the UI-side validation gate
(`ui_accepts`, app.py line 201), which requires a non-empty search text,
keeps an empty phrase away from the engine. -/
theorem count_occurrences_empty_phrase :
    (∀ t : List Char, t ≠ [] → count_occurrences t [] = t.length + 1) ∧
    (∀ u s : List Char, ui_accepts u s = true → s ≠ [] ∧ u ≠ []) := by
  constructor
  · intro t ht
    simp [count_occurrences, pyCount, ht]
  · intro u s h
    cases u with
    | nil => simp [ui_accepts] at h
    | cons a l =>
      cases s with
      | nil => simp [ui_accepts] at h
      | cons b m => exact ⟨List.cons_ne_nil b m, List.cons_ne_nil a l⟩

/-- Witness for C10: the haystack `"abc"` with the empty phrase yields
`3 + 1 = 4`. -/
theorem count_occurrences_empty_phrase_witness :
    "abc".toList ≠ ([] : List Char) ∧
    count_occurrences "abc".toList [] = "abc".toList.length + 1 :=
  ⟨by decide, count_occurrences_empty_phrase.1 "abc".toList (by decide)⟩

/-! ## Per-page image loop -/

theorem image_scan_eq {V : Type} (ocr : V → List Char) (vis : V → Bool)
    (kw : List Char) (imgs : List V) : ∀ (cnt : Nat) (has : Bool),
    image_scan ocr vis kw imgs cnt has =
      (cnt + (imgs.map fun i => count_occurrences (ocr i) kw).sum,
       has || imgs.any vis,
       if has then [] else visCallsExpected vis imgs) := by
  induction imgs with
  | nil => intro cnt has; simp [image_scan, visCallsExpected]
  | cons i rest ih =>
    intro cnt has
    cases has with
    | true => simp [image_scan, ih, Nat.add_assoc]
    | false =>
      cases hv : vis i with
      | true => simp [image_scan, ih, hv, visCallsExpected, Nat.add_assoc]
      | false => simp [image_scan, ih, hv, visCallsExpected, Nat.add_assoc]

/-- C9.  Within one page's image loop (started with count 0 and
`image_has_text = False`): the OCR occurrence count accumulates
`count_occurrences` over *every* image of the page, the visual flag is
true iff some image trips the detector, and the visual detector is
invoked exactly on the images up to and including the first one that
trips it (`visCallsExpected`) — in particular it is not invoked on any
image after the first detection, while OCR counting still covers the
remaining images. -/
theorem image_scan_short_circuit {V : Type} (ocr : V → List Char)
    (vis : V → Bool) (kw : List Char) (imgs : List V) :
    image_scan ocr vis kw imgs 0 false =
      ((imgs.map fun i => count_occurrences (ocr i) kw).sum,
       imgs.any vis, visCallsExpected vis imgs) := by
  simp [image_scan_eq]

/-! ## Link discovery and the same-origin filter -/

theorem discover_links_sound (base url : List Char)
    (hrefs visited : List (List Char)) (link : List Char)
    (h : link ∈ discover_links base url hrefs visited) :
    (urlparse link).netloc = (urlparse base).netloc ∧ link ∉ visited := by
  simp only [discover_links, List.mem_filter, Bool.and_eq_true,
    Bool.not_eq_true'] at h
  obtain ⟨-, hint, hvis⟩ := h
  refine ⟨?_, ?_⟩
  · simpa [is_internal_link] using hint
  · intro hmem
    have : visited.contains link = true := List.elem_iff.mpr hmem
    rw [this] at hvis
    exact absurd hvis (by simp)

/-- C1 counterexample.  From the seed `https://site.example.com`, the
discovered link `http://site.example.com/x` — same host but a *different
scheme* — is enqueued by `discover_links`, so the enqueue condition does
not require scheme equality with the seed. -/
theorem discover_links_scheme_cex :
    "http://site.example.com/x".toList ∈
      discover_links "https://site.example.com".toList
        "https://site.example.com".toList
        ["http://site.example.com/x".toList]
        ["https://site.example.com".toList] ∧
    (urlparse "http://site.example.com/x".toList).scheme ≠
      (urlparse "https://site.example.com".toList).scheme := by
  constructor
  · decide
  · decide

/-- C1 (amended).  A discovered link is enqueued onto the frontier only
if its *host* (netloc) equals the seed URL's host and it is not already
visited — the scheme is not compared.  A link to
`https://other.example.com/x` from a page on `https://site.example.com`
is never enqueued, while a relative link `/about` resolves against the
page URL to `https://site.example.com/about` and is enqueued. -/
theorem discover_links_same_host :
    (∀ (base url : List Char) (hrefs visited : List (List Char))
        (link : List Char), link ∈ discover_links base url hrefs visited →
      (urlparse link).netloc = (urlparse base).netloc ∧ link ∉ visited) ∧
    discover_links "https://site.example.com".toList
        "https://site.example.com".toList ["/about".toList]
        ["https://site.example.com".toList]
      = ["https://site.example.com/about".toList] ∧
    discover_links "https://site.example.com".toList
        "https://site.example.com".toList
        ["https://other.example.com/x".toList]
        ["https://site.example.com".toList] = [] := by
  refine ⟨discover_links_sound, by decide, by decide⟩

/-- Witness for C1 (amended): the host-equality conclusion at the
concrete `/about` example. -/
theorem discover_links_same_host_witness :
    (urlparse "https://site.example.com/about".toList).netloc =
      (urlparse "https://site.example.com".toList).netloc ∧
    "https://site.example.com/about".toList ∉
      ["https://site.example.com".toList] :=
  discover_links_same_host.1 "https://site.example.com".toList
    "https://site.example.com".toList ["/about".toList]
    ["https://site.example.com".toList]
    "https://site.example.com/about".toList (by decide)

/-! ## Fail-soft fetching -/

/-- C6.  If the page fetch raises (network error, timeout, or a body
that fails to parse — the `error` case of the `http` oracle),
`get_page_content` returns an absent document and empty text instead of
propagating the error, and the crawl loop records the page (visited,
scanned-count incremented, no result row) and proceeds to the next
frontier item instead of aborting. -/
theorem fetch_fail_soft :
    (∀ (http : U → Except ε (PageDoc U)) (url : U) (e : ε),
      http url = .error e → get_page_content http url = (none, [])) ∧
    (∀ (cfg : CrawlConfig U ε) (fuel : Nat) (url : U) (rest : List U)
        (visited : Finset U) (results : List (PageResult U)) (scanned : Nat)
        (fetched : List U) (e : ε),
      url ∉ visited → scanned < cfg.budget → cfg.http url = .error e →
      crawlLoop cfg (fuel + 1) ⟨url :: rest, visited, results, scanned, fetched⟩ =
        crawlLoop cfg fuel
          ⟨rest, insert url visited, results, scanned + 1, fetched ++ [url]⟩) := by
  constructor
  · intro http url e h
    simp [get_page_content, h]
  · intro cfg fuel url rest visited results scanned fetched e hnv hs herr
    simp only [crawlLoop]
    rw [if_neg (Nat.not_le.mpr hs), if_neg hnv]
    simp [get_page_content, herr, count_occurrences]

/-- Witness for C6: a failing fetch on the one-URL universe. -/
theorem fetch_fail_soft_witness :
    get_page_content cfgErr.http () = (none, []) ∧
    crawlLoop cfgErr 1 ⟨[()], ∅, [], 0, []⟩ =
      crawlLoop cfgErr 0 ⟨[], insert () ∅, [], 0 + 1, [] ++ [()]⟩ :=
  ⟨fetch_fail_soft.1 cfgErr.http () () rfl,
   fetch_fail_soft.2 cfgErr 0 () [] ∅ [] 0 [] ()
     (Finset.not_mem_empty ()) (by decide) rfl⟩

/-! ## Fail-soft image analysis -/

/-- C7.  Any failure at any stage of image processing — download,
decode, any preprocessing operation, the OCR engine itself, the
thresholding, or the contour extraction — yields empty OCR text
(`extract_text_from_image`) respectively a `false` visual flag
(`image_contains_text`) rather than an exception reaching the caller;
empty OCR text contributes occurrence count 0. -/
theorem image_fail_soft {V ε' Bytes Img GImg BinImg : Type} :
    (∀ (env : OcrEnv V ε' Bytes Img) (u : V) (e : ε'),
      env.download u = .error e → extract_text_from_image env u = []) ∧
    (∀ (env : OcrEnv V ε' Bytes Img) (u : V) (b : Bytes) (e : ε'),
      env.download u = .ok b → env.decode b = .error e →
      extract_text_from_image env u = []) ∧
    (∀ (env : OcrEnv V ε' Bytes Img) (u : V) (b : Bytes) (img : Img) (e : ε'),
      env.download u = .ok b → env.decode b = .ok img →
      applyOps env.step ocrPipeline img = .error e →
      extract_text_from_image env u = []) ∧
    (∀ (env : OcrEnv V ε' Bytes Img) (u : V) (b : Bytes) (img pre : Img)
        (e : ε'),
      env.download u = .ok b → env.decode b = .ok img →
      applyOps env.step ocrPipeline img = .ok pre →
      env.runOcr pre ocrConfig = .error e →
      extract_text_from_image env u = []) ∧
    (∀ (env : OcrEnv V ε' Bytes Img) (u : V) (kw : List Char),
      extract_text_from_image env u = [] →
      count_occurrences (extract_text_from_image env u) kw = 0) ∧
    (∀ (env : VisionEnv V ε' Bytes GImg BinImg) (u : V) (e : ε'),
      env.download u = .error e → image_contains_text env u = false) ∧
    (∀ (env : VisionEnv V ε' Bytes GImg BinImg) (u : V) (b : Bytes) (e : ε'),
      env.download u = .ok b → env.decode b = .error e →
      image_contains_text env u = false) ∧
    (∀ (env : VisionEnv V ε' Bytes GImg BinImg) (u : V) (b : Bytes) (g : GImg)
        (e : ε'),
      env.download u = .ok b → env.decode b = .ok g →
      env.threshold g = .error e → image_contains_text env u = false) ∧
    (∀ (env : VisionEnv V ε' Bytes GImg BinImg) (u : V) (b : Bytes) (g : GImg)
        (bin : BinImg) (e : ε'),
      env.download u = .ok b → env.decode b = .ok g →
      env.threshold g = .ok bin → env.contours bin = .error e →
      image_contains_text env u = false) := by
  refine ⟨?_, ?_, ?_, ?_, ?_, ?_, ?_, ?_, ?_⟩
  · intro env u e h1
    simp [extract_text_from_image, h1]
  · intro env u b e h1 h2
    simp [extract_text_from_image, h1, h2]
  · intro env u b img e h1 h2 h3
    simp [extract_text_from_image, h1, h2, h3]
  · intro env u b img pre e h1 h2 h3 h4
    simp [extract_text_from_image, h1, h2, h3, h4]
  · intro env u kw h
    rw [h]
    rfl
  · intro env u e h1
    simp [image_contains_text, h1]
  · intro env u b e h1 h2
    simp [image_contains_text, h1, h2]
  · intro env u b g e h1 h2 h3
    simp [image_contains_text, h1, h2, h3]
  · intro env u b g bin e h1 h2 h3 h4
    simp [image_contains_text, h1, h2, h3, h4]

/-- Witness for C7: the 404 image URL (download succeeds with the HTML
error page as body, the image decoder then raises) gives empty OCR text,
occurrence count 0, and visual flag `false`. -/
theorem image_fail_soft_witness :
    extract_text_from_image ocrEnv404 () = [] ∧
    count_occurrences (extract_text_from_image ocrEnv404 ()) "kids".toList = 0 ∧
    image_contains_text visionEnv404 () = false :=
  have h := @image_fail_soft Unit Unit Unit Unit Unit Unit
  ⟨h.2.1 ocrEnv404 () () () rfl rfl,
   h.2.2.2.2.1 ocrEnv404 () "kids".toList (h.2.1 ocrEnv404 () () () rfl rfl),
   h.2.2.2.2.2.2.1 visionEnv404 () () () rfl rfl⟩

/-! ## The OCR preprocessing pipeline -/

/-- C8 counterexample.  The pipeline the code applies (`ocrPipeline`,
from app.py lines 46–52) is not the one the specification describes
(`specOcrPipeline`): the 2× upscale uses `Image.BICUBIC`, not linear
interpolation, and the pipeline starts with an extra conversion to RGBA
before the greyscale conversion. -/
theorem ocrPipeline_cex :
    ocrPipeline ≠ specOcrPipeline ∧
    ImgOp.resize 2 .bicubic ∈ ocrPipeline ∧
    ImgOp.resize 2 .bilinear ∉ ocrPipeline ∧
    ImgOp.convert .RGBA ∈ ocrPipeline ∧
    ImgOp.convert .RGBA ∉ specOcrPipeline := by
  refine ⟨by decide, by decide, by decide, by decide, by decide⟩

/-- C8 (amended).  The preprocessing applied to every downloaded image
is exactly: convert to RGBA (palette/transparency safety), convert to
greyscale, upscale 2× with *bicubic* interpolation, apply a sharpening
filter, then increase contrast by the fixed factor 2; the OCR engine is
run in single-text-block mode (`--psm 6`) and, whenever every stage
succeeds, the recognized text is returned lower-cased. -/
theorem ocrPipeline_spec :
    ocrPipeline = [.convert .RGBA, .convert .L, .resize 2 .bicubic,
      .sharpen, .contrast 2] ∧
    ocrConfig = "--psm 6" ∧
    (∀ {V ε' Bytes Img : Type} (env : OcrEnv V ε' Bytes Img) (u : V)
        (b : Bytes) (img pre : Img) (t : List Char),
      env.download u = .ok b → env.decode b = .ok img →
      applyOps env.step ocrPipeline img = .ok pre →
      env.runOcr pre ocrConfig = .ok t →
      extract_text_from_image env u = t.map Char.toLower) := by
  refine ⟨rfl, rfl, ?_⟩
  intro V ε' Bytes Img env u b img pre t h1 h2 h3 h4
  simp [extract_text_from_image, h1, h2, h3, h4]

/-- Witness for C8 (amended): a fully succeeding OCR oracle reading
`"Hi"` produces the lower-cased `"hi"`. -/
theorem ocrPipeline_spec_witness :
    extract_text_from_image ocrEnvOk () = ['H', 'i'].map Char.toLower ∧
    ['H', 'i'].map Char.toLower = ['h', 'i'] :=
  ⟨ocrPipeline_spec.2.2 ocrEnvOk () () () () ['H', 'i'] rfl rfl rfl rfl,
   by decide⟩

/-! ## Properties of the reachable set -/

theorem subset_expandR (cfg : CrawlConfig U ε) (s : Finset U) :
    s ⊆ expandR cfg s :=
  Finset.subset_union_left

theorem subset_iterate_expandR (cfg : CrawlConfig U ε) (s : Finset U) :
    ∀ n, s ⊆ (expandR cfg)^[n] s := by
  intro n
  induction n with
  | zero => exact fun x hx => hx
  | succ n ih =>
    rw [Function.iterate_succ_apply']
    exact ih.trans (subset_expandR cfg _)

theorem iterate_expandR_fix (cfg : CrawlConfig U ε) (s : Finset U) (i : Nat)
    (h : expandR cfg ((expandR cfg)^[i] s) = (expandR cfg)^[i] s) :
    ∀ k, (expandR cfg)^[i + k] s = (expandR cfg)^[i] s := by
  intro k
  induction k with
  | zero => rfl
  | succ k ih =>
    have : i + (k + 1) = (i + k) + 1 := rfl
    rw [this, Function.iterate_succ_apply', ih, h]

theorem expandR_growth (cfg : CrawlConfig U ε) (s : Finset U) :
    ∀ n, (∀ i < n, (expandR cfg)^[i + 1] s ≠ (expandR cfg)^[i] s) →
      s.card + n ≤ ((expandR cfg)^[n] s).card := by
  intro n
  induction n with
  | zero => intro _; simp
  | succ n ih =>
    intro h
    have h1 := ih (fun i hi => h i (Nat.lt_succ_of_lt hi))
    have hne := h n (Nat.lt_succ_self n)
    have hsub : (expandR cfg)^[n] s ⊆ (expandR cfg)^[n + 1] s := by
      rw [Function.iterate_succ_apply']
      exact subset_expandR cfg _
    have hss : (expandR cfg)^[n] s ⊂ (expandR cfg)^[n + 1] s :=
      Finset.ssubset_iff_subset_ne.mpr ⟨hsub, fun he => hne he.symm⟩
    have := Finset.card_lt_card hss
    omega

theorem reach_fix [Fintype U] (cfg : CrawlConfig U ε) (seed : U) :
    expandR cfg (reach cfg seed) = reach cfg seed := by
  by_cases hall : ∀ i < Fintype.card U,
      (expandR cfg)^[i + 1] {seed} ≠ (expandR cfg)^[i] {seed}
  · exfalso
    have hg := expandR_growth cfg {seed} (Fintype.card U) hall
    have hle : (((expandR cfg)^[Fintype.card U]) {seed}).card ≤ Fintype.card U := by
      simpa [Finset.card_univ] using
        Finset.card_le_card ((((expandR cfg)^[Fintype.card U]) {seed}).subset_univ)
    simp [Finset.card_singleton] at hg
    omega
  · push_neg at hall
    obtain ⟨i, hi, heq⟩ := hall
    have hfix : expandR cfg ((expandR cfg)^[i] {seed}) = (expandR cfg)^[i] {seed} := by
      rw [← Function.iterate_succ_apply' (expandR cfg) i {seed}]
      exact heq
    have h1 : (expandR cfg)^[Fintype.card U] {seed} = (expandR cfg)^[i] {seed} := by
      have h2 := iterate_expandR_fix cfg {seed} i hfix (Fintype.card U - i)
      rw [← h2]
      congr 1
      omega
    simp only [reach, h1, hfix]

theorem seed_mem_reach [Fintype U] (cfg : CrawlConfig U ε) (seed : U) :
    seed ∈ reach cfg seed :=
  subset_iterate_expandR cfg {seed} (Fintype.card U) (Finset.mem_singleton_self seed)

theorem reach_closed [Fintype U] (cfg : CrawlConfig U ε) (seed : U) {u v : U}
    (hu : u ∈ reach cfg seed) (hv : v ∈ succs cfg u) : v ∈ reach cfg seed := by
  rw [← reach_fix cfg seed]
  exact Finset.mem_union_right _
    (Finset.mem_biUnion.mpr ⟨u, hu, List.mem_toFinset.mpr hv⟩)

theorem reach_min [Fintype U] (cfg : CrawlConfig U ε) (seed : U) (T : Finset U)
    (hseed : seed ∈ T) (hcl : ∀ u ∈ T, ∀ v ∈ succs cfg u, v ∈ T) :
    reach cfg seed ⊆ T := by
  have key : ∀ n (s : Finset U), s ⊆ T → (expandR cfg)^[n] s ⊆ T := by
    intro n
    induction n with
    | zero => exact fun s hs => hs
    | succ n ih =>
      intro s hs
      rw [Function.iterate_succ_apply]
      apply ih
      intro x hx
      rcases Finset.mem_union.mp hx with h | h
      · exact hs h
      · obtain ⟨u, hu, hx⟩ := Finset.mem_biUnion.mp h
        exact hcl u (hs hu) x (List.mem_toFinset.mp hx)
  exact key _ {seed} (Finset.singleton_subset_iff.mpr hseed)

/-! ## Crawl-loop lemmas -/

theorem mem_newLinks (cfg : CrawlConfig U ε) (visited' : Finset U)
    (doc : PageDoc U) (l : U) :
    l ∈ newLinks cfg visited' doc ↔
      l ∈ doc.links ∧ cfg.isInternal l = true ∧ l ∉ visited' := by
  simp [newLinks, List.mem_filter, and_assoc]

theorem crawlLoop_scanned_le (cfg : CrawlConfig U ε) :
    ∀ (fuel : Nat) (st : CrawlState U), st.scanned ≤ cfg.budget →
      (crawlLoop cfg fuel st).scanned ≤ cfg.budget := by
  intro fuel
  induction fuel with
  | zero => exact fun _ h => h
  | succ fuel ih =>
    intro st h
    obtain ⟨queue, visited, results, scanned, fetched⟩ := st
    cases queue with
    | nil => exact h
    | cons url rest =>
      simp only [crawlLoop]
      by_cases hb : cfg.budget ≤ scanned
      · rw [if_pos hb]
        exact h
      · rw [if_neg hb]
        by_cases hv : url ∈ visited
        · rw [if_pos hv]
          exact ih _ h
        · rw [if_neg hv]
          exact ih _ (Nat.succ_le_of_lt (Nat.lt_of_not_le hb))

theorem sum_outWeight_split [Fintype U] (cfg : CrawlConfig U ε)
    (visited : Finset U) (url : U) (h : url ∉ visited) :
    ∑ u ∈ Finset.univ \ visited, outWeight cfg u =
      outWeight cfg url +
        ∑ u ∈ Finset.univ \ insert url visited, outWeight cfg u := by
  rw [Finset.sdiff_insert]
  exact (Finset.add_sum_erase _ _ (by simp [h])).symm

theorem crawlLoop_exit [Fintype U] (cfg : CrawlConfig U ε) :
    ∀ (fuel : Nat) (st : CrawlState U), crawlMeasure cfg st < fuel →
      ExitCond cfg (crawlLoop cfg fuel st) := by
  intro fuel
  induction fuel with
  | zero => exact fun st h => absurd h (Nat.not_lt_zero _)
  | succ fuel ih =>
    intro st h
    obtain ⟨queue, visited, results, scanned, fetched⟩ := st
    cases queue with
    | nil => exact Or.inl rfl
    | cons url rest =>
      simp only [crawlLoop]
      by_cases hb : cfg.budget ≤ scanned
      · rw [if_pos hb]
        exact Or.inr hb
      · rw [if_neg hb]
        by_cases hv : url ∈ visited
        · rw [if_pos hv]
          apply ih
          simp only [crawlMeasure, List.length_cons] at h ⊢
          omega
        · rw [if_neg hv]
          apply ih
          have hsplit := sum_outWeight_split cfg visited url hv
          cases hh : cfg.http url with
          | error e =>
            have hw : outWeight cfg url = 0 := by simp [outWeight, hh]
            simp only [crawlMeasure, get_page_content, hh, List.length_cons] at h ⊢
            omega
          | ok doc =>
            have hw : outWeight cfg url = doc.links.length := by
              simp [outWeight, hh]
            have hfl : (newLinks cfg (insert url visited) doc).length ≤
                doc.links.length := List.length_filter_le _ _
            simp only [crawlMeasure, get_page_content, hh, List.length_cons,
              List.length_append] at h ⊢
            omega

theorem crawlRun_exit [Fintype U] (cfg : CrawlConfig U ε) (seed : U) :
    ExitCond cfg (crawlRun cfg seed) :=
  crawlLoop_exit cfg _ _ (Nat.lt_succ_self _)

theorem crawlLoop_inv [Fintype U] (cfg : CrawlConfig U ε) (seed : U) :
    ∀ (fuel : Nat) (st : CrawlState U), CrawlInv cfg seed st →
      CrawlInv cfg seed (crawlLoop cfg fuel st) := by
  intro fuel
  induction fuel with
  | zero => exact fun _ h => h
  | succ fuel ih =>
    intro st hinv
    obtain ⟨queue, visited, results, scanned, fetched⟩ := st
    obtain ⟨hsc, hqr, hvr, hcl, hseed, hnd, hfv⟩ := hinv
    cases queue with
    | nil => exact ⟨hsc, hqr, hvr, hcl, hseed, hnd, hfv⟩
    | cons url rest =>
      dsimp only at hsc hqr hvr hcl hseed hnd hfv
      simp only [crawlLoop]
      by_cases hb : cfg.budget ≤ scanned
      · rw [if_pos hb]
        exact ⟨hsc, hqr, hvr, hcl, hseed, hnd, hfv⟩
      · rw [if_neg hb]
        by_cases hv : url ∈ visited
        · rw [if_pos hv]
          apply ih
          refine ⟨hsc, ?_, hvr, ?_, ?_, hnd, hfv⟩
          · exact fun u hu => hqr u (List.mem_cons_of_mem _ hu)
          · intro u hu v hvv
            rcases hcl u hu v hvv with h1 | h1
            · exact Or.inl h1
            · rcases List.mem_cons.mp h1 with h1 | h1
              · exact Or.inl (h1 ▸ hv)
              · exact Or.inr h1
          · rcases hseed with h1 | h1
            · exact Or.inl h1
            · rcases List.mem_cons.mp h1 with h1 | h1
              · exact Or.inl (h1 ▸ hv)
              · exact Or.inr h1
        · rw [if_neg hv]
          apply ih
          have hur : url ∈ reach cfg seed := hqr url (List.mem_cons_self url rest)
          have hscan : scanned + 1 = (insert url visited).card := by
            rw [Finset.card_insert_of_not_mem hv, hsc]
          have hvr' : insert url visited ⊆ reach cfg seed :=
            Finset.insert_subset_iff.mpr ⟨hur, hvr⟩
          have hnotf : url ∉ fetched := fun hm => hv (hfv ▸ List.mem_toFinset.mpr hm)
          have hnd' : (fetched ++ [url]).Nodup := by
            rw [List.nodup_append]
            exact ⟨hnd, List.nodup_singleton url,
              fun a ha hb' => hnotf ((List.mem_singleton.mp hb') ▸ ha)⟩
          have hfv' : (fetched ++ [url]).toFinset = insert url visited := by
            rw [List.toFinset_append, hfv]
            ext x
            simp [or_comm]
          cases hh : cfg.http url with
          | error e =>
            simp only [get_page_content, hh]
            refine ⟨hscan, ?_, hvr', ?_, ?_, hnd', hfv'⟩
            · exact fun u hu => hqr u (List.mem_cons_of_mem _ hu)
            · intro u hu v hvv
              rcases Finset.mem_insert.mp hu with h1 | h1
              · exfalso
                rw [h1] at hvv
                simp [succs, hh] at hvv
              · rcases hcl u h1 v hvv with h2 | h2
                · exact Or.inl (Finset.mem_insert_of_mem h2)
                · rcases List.mem_cons.mp h2 with h2 | h2
                  · exact Or.inl (h2 ▸ Finset.mem_insert_self url visited)
                  · exact Or.inr h2
            · rcases hseed with h1 | h1
              · exact Or.inl (Finset.mem_insert_of_mem h1)
              · rcases List.mem_cons.mp h1 with h1 | h1
                · exact Or.inl (h1 ▸ Finset.mem_insert_self url visited)
                · exact Or.inr h1
          | ok doc =>
            simp only [get_page_content, hh]
            have hsuccs : succs cfg url = doc.links.filter cfg.isInternal := by
              simp [succs, hh]
            refine ⟨hscan, ?_, hvr', ?_, ?_, hnd', hfv'⟩
            · intro u hu
              rcases List.mem_append.mp hu with h1 | h1
              · exact hqr u (List.mem_cons_of_mem _ h1)
              · have h2 := (mem_newLinks cfg _ doc u).mp h1
                have : u ∈ succs cfg url := by
                  rw [hsuccs]
                  exact List.mem_filter.mpr ⟨h2.1, h2.2.1⟩
                exact reach_closed cfg seed hur this
            · intro u hu v hvv
              rcases Finset.mem_insert.mp hu with h1 | h1
              · subst h1
                by_cases hvv' : v ∈ insert u visited
                · exact Or.inl hvv'
                · refine Or.inr (List.mem_append.mpr (Or.inr ?_))
                  rw [hsuccs] at hvv
                  have h3 := List.mem_filter.mp hvv
                  exact (mem_newLinks cfg _ doc v).mpr ⟨h3.1, h3.2, hvv'⟩
              · rcases hcl u h1 v hvv with h2 | h2
                · exact Or.inl (Finset.mem_insert_of_mem h2)
                · rcases List.mem_cons.mp h2 with h2 | h2
                  · exact Or.inl (h2 ▸ Finset.mem_insert_self url visited)
                  · exact Or.inr (List.mem_append.mpr (Or.inl h2))
            · rcases hseed with h1 | h1
              · exact Or.inl (Finset.mem_insert_of_mem h1)
              · rcases List.mem_cons.mp h1 with h1 | h1
                · exact Or.inl (h1 ▸ Finset.mem_insert_self url visited)
                · exact Or.inr (List.mem_append.mpr (Or.inl h1))

theorem initState_inv [Fintype U] (cfg : CrawlConfig U ε) (seed : U) :
    CrawlInv cfg seed (initState seed) := by
  refine ⟨by simp [initState], ?_, ?_, ?_, ?_, ?_, ?_⟩
  · intro u hu
    rw [List.mem_singleton.mp hu]
    exact seed_mem_reach cfg seed
  · simp [initState]
  · simp [initState]
  · exact Or.inr (List.mem_singleton_self seed)
  · exact List.nodup_nil
  · simp [initState]

theorem crawlRun_inv [Fintype U] (cfg : CrawlConfig U ε) (seed : U) :
    CrawlInv cfg seed (crawlRun cfg seed) :=
  crawlLoop_inv cfg seed _ _ (initState_inv cfg seed)

theorem crawlRun_final_visited [Fintype U] (cfg : CrawlConfig U ε) (seed : U)
    (hq : (crawlRun cfg seed).queue = []) :
    (crawlRun cfg seed).visited = reach cfg seed := by
  have hinv := crawlRun_inv cfg seed
  apply Finset.Subset.antisymm hinv.visited_reach
  apply reach_min
  · rcases hinv.seed_mem with h | h
    · exact h
    · rw [hq] at h
      cases h
  · intro u hu v hv
    rcases hinv.closed u hu v hv with h | h
    · exact h
    · rw [hq] at h
      cases h

/-- C2.  Budget enforcement: from any state whose scanned-count is within
the budget — in particular at every point of a run started at 0 — the
scanned-count still is within the budget after any number of loop
iterations; and when the reachable same-origin graph holds more than
`budget ≥ 1` URLs, the run from the seed ends with scanned-count exactly
equal to the budget. -/
theorem budget_enforced [Fintype U] (cfg : CrawlConfig U ε) (seed : U) :
    (∀ (fuel : Nat) (st : CrawlState U), st.scanned ≤ cfg.budget →
      (crawlLoop cfg fuel st).scanned ≤ cfg.budget) ∧
    (1 ≤ cfg.budget → cfg.budget < (reach cfg seed).card →
      (crawlRun cfg seed).scanned = cfg.budget) := by
  refine ⟨crawlLoop_scanned_le cfg, ?_⟩
  intro _ hlt
  have hle : (crawlRun cfg seed).scanned ≤ cfg.budget :=
    crawlLoop_scanned_le cfg _ _ (Nat.zero_le _)
  rcases crawlRun_exit cfg seed with hq | hb
  · exfalso
    have hv := crawlRun_final_visited cfg seed hq
    have hs := (crawlRun_inv cfg seed).scanned_eq
    rw [hv] at hs
    omega
  · omega

/-- Witness for C2: on the two-page site with budget 1 (reachable graph
of size 2), the run scans exactly 1 page, and the invariant part applied
at the initial state. -/
theorem budget_enforced_witness :
    (crawlLoop cfgB1 5 (initState 0)).scanned ≤ cfgB1.budget ∧
    (crawlRun cfgB1 0).scanned = cfgB1.budget :=
  ⟨(budget_enforced cfgB1 0).1 5 (initState 0) (by decide),
   (budget_enforced cfgB1 0).2 (by decide) (by decide)⟩

/-- C4 counterexample.  With the two-page site of `cfgEx` and budget
2 = size of the reachable graph, the run scans every reachable page, but
the frontier is *not* emptied before the budget is reached: a stale
duplicate enqueue of page 1 is still pending when `scanned` hits the
budget, so the loop stops on the budget condition with a non-empty
queue. -/
theorem frontier_not_emptied_cex :
    (reach cfgEx 0).card ≤ cfgEx.budget ∧
    cfgEx.budget ≤ (crawlRun cfgEx 0).scanned ∧
    (crawlRun cfgEx 0).queue ≠ [] := by
  refine ⟨by decide, by decide, by decide⟩

/-- C4 (amended).  For any finite same-origin link graph and any budget
≥ the number of reachable nodes, the crawl loop terminates (one of the
two loop exit conditions holds at the final state), visits every URL
reachable from the seed exactly once (the fetch trace has no duplicates
and covers exactly the reachable set), and the final scanned-count
equals the number of reachable nodes.  When the budget is *strictly*
larger than the reachable graph the frontier is emptied; when it equals
it, stale duplicate enqueues may remain pending (see the
counterexample). -/
theorem crawl_completes [Fintype U] (cfg : CrawlConfig U ε) (seed : U)
    (h : (reach cfg seed).card ≤ cfg.budget) :
    (crawlRun cfg seed).visited = reach cfg seed ∧
    (crawlRun cfg seed).scanned = (reach cfg seed).card ∧
    (crawlRun cfg seed).fetched.Nodup ∧
    (crawlRun cfg seed).fetched.toFinset = reach cfg seed ∧
    ExitCond cfg (crawlRun cfg seed) ∧
    ((reach cfg seed).card < cfg.budget → (crawlRun cfg seed).queue = []) := by
  have hinv := crawlRun_inv cfg seed
  have hvis : (crawlRun cfg seed).visited = reach cfg seed := by
    rcases crawlRun_exit cfg seed with hq | hb
    · exact crawlRun_final_visited cfg seed hq
    · apply Finset.eq_of_subset_of_card_le hinv.visited_reach
      have hs := hinv.scanned_eq
      omega
  refine ⟨hvis, by rw [hinv.scanned_eq, hvis], hinv.fetched_nodup,
    by rw [hinv.fetched_visited, hvis], crawlRun_exit cfg seed, ?_⟩
  intro hlt
  rcases crawlRun_exit cfg seed with hq | hb
  · exact hq
  · exfalso
    have hs := hinv.scanned_eq
    rw [hvis] at hs
    omega

/-- Witness for C4 (amended): the two-page site with budget 3. -/
theorem crawl_completes_witness :
    (reach cfgB3 0).card ≤ cfgB3.budget ∧
    (crawlRun cfgB3 0).visited = reach cfgB3 0 ∧
    (crawlRun cfgB3 0).scanned = (reach cfgB3 0).card ∧
    (crawlRun cfgB3 0).queue = [] :=
  ⟨by decide, (crawl_completes cfgB3 0 (by decide)).1,
   (crawl_completes cfgB3 0 (by decide)).2.1,
   (crawl_completes cfgB3 0 (by decide)).2.2.2.2.2 (by decide)⟩

/-- C5 counterexample.  The visited-set check does *not* happen only at
dequeue time: processing page 0 — whose document links (twice) to the
internal URL 1 — while 1 is already visited enqueues nothing, because
line 160 of app.py also tests `link not in visited` at enqueue time. -/
theorem enqueue_check_cex :
    cfgEx.isInternal 1 = true ∧
    (crawlLoop cfgEx 1 ⟨[0], {1}, [], 0, []⟩).queue = [] ∧
    newLinks cfgEx {0, 1} ⟨[], [1, 1], []⟩ = [] := by
  refine ⟨rfl, by decide, by decide⟩

/-- C5 (amended).  No URL is ever processed twice: the fetch trace of a
run has no duplicates (so the visited set never receives the same URL
twice); dequeuing a URL that is already visited is a no-op — same
continuation with the entry discarded, no fetch, no appended result, no
scanned-count increment; and the visited-set check happens *both* at
enqueue time (a discovered link is enqueued iff it is internal and not
yet visited, so links to already-visited URLs are dropped immediately)
and at dequeue time (which catches URLs enqueued more than once while
still unvisited — duplicate enqueues are tolerated). -/
theorem visit_idempotent [Fintype U] :
    (∀ (cfg : CrawlConfig U ε) (seed : U), (crawlRun cfg seed).fetched.Nodup) ∧
    (∀ (cfg : CrawlConfig U ε) (fuel : Nat) (url : U) (rest : List U)
        (visited : Finset U) (results : List (PageResult U)) (scanned : Nat)
        (fetched : List U), url ∈ visited → scanned < cfg.budget →
      crawlLoop cfg (fuel + 1) ⟨url :: rest, visited, results, scanned, fetched⟩ =
        crawlLoop cfg fuel ⟨rest, visited, results, scanned, fetched⟩) ∧
    (∀ (cfg : CrawlConfig U ε) (visited' : Finset U) (doc : PageDoc U) (l : U),
      l ∈ newLinks cfg visited' doc ↔
        l ∈ doc.links ∧ cfg.isInternal l = true ∧ l ∉ visited') := by
  refine ⟨fun cfg seed => (crawlRun_inv cfg seed).fetched_nodup, ?_,
    fun cfg => mem_newLinks cfg⟩
  intro cfg fuel url rest visited results scanned fetched hv hs
  simp only [crawlLoop]
  rw [if_neg (Nat.not_le.mpr hs), if_pos hv]

/-- Witness for C5 (amended): the run over the two-page site never
fetches a URL twice, and a concrete dequeue of an already-visited URL is
a no-op. -/
theorem visit_idempotent_witness :
    (crawlRun cfgEx 0).fetched.Nodup ∧
    crawlLoop cfgEx 1 ⟨[0], {0}, [], 0, []⟩ =
      crawlLoop cfgEx 0 ⟨[], {0}, [], 0, []⟩ ∧
    ((1 : Fin 2) ∈ newLinks cfgEx {0} ⟨[], [1, 1], []⟩ ↔
      (1 : Fin 2) ∈ ([1, 1] : List (Fin 2)) ∧ cfgEx.isInternal 1 = true ∧
        (1 : Fin 2) ∉ ({0} : Finset (Fin 2))) :=
  ⟨visit_idempotent.1 cfgEx 0,
   visit_idempotent.2.1 cfgEx 0 0 [] {0} [] 0 [] (by decide) (by decide),
   visit_idempotent.2.2 cfgEx {0} ⟨[], [1, 1], []⟩ 1⟩

end WCC
